import Mathlib

/-!
Verification of the scrypt key-derivation core (Go package `scrypt`,
files `scrypt.go` and two further style variants of the same package).

Byte buffers are modelled as `List Nat` (each element a byte value),
32-bit machine words as `Nat` with explicit reduction modulo `2^32`,
and Go's 64-bit `int` parameters as `Int`.  Imperative in-place buffer
mutation is modelled by explicit functional writes (`writeBytes`) and
folds over `List.range`, mirroring the source's `for` loops.  The
external PBKDF2-HMAC-SHA256 primitive is an explicit function
parameter.  A Go run-time panic (integer division by zero in the
parameter validator) is modelled by a dedicated result constructor.

Variant namespaces:
 * `scryptA` — `scrypt.go` (array-based salsa, slice blockMix);
 * `scryptB` — first variant in the second source file (unrolled salsa
   on named words with `u` temporaries, `[64]byte` blockMix);
 * `scryptC` — second variant in the second source file (`rot` helper
   salsa; its `Key` checks `N <= 0` instead of `N <= 1`).

Definitions prefixed `spec` are written from the specification's words
(§4.A–§4.F) and are compared against the source embeddings.
-/

/-- `2^32`, the modulus of Go `uint32` arithmetic. -/
def M32 : Nat := 4294967296

/-- 32-bit left rotation: `u<<n | u>>(32-n)` on `uint32`. -/
def rotl32 (u n : Nat) : Nat := ((u <<< n) ||| (u >>> (32 - n))) % M32

/-- The `rot` helper of variant C: `(a << b) | (a >> (32 - b))` on `uint32`. -/
def rot (a b : Nat) : Nat := ((a <<< b) ||| (a >>> (32 - b))) % M32

/-- Little-endian 32-bit word read at byte offset `j`:
`uint32(b[j]) | uint32(b[j+1])<<8 | uint32(b[j+2])<<16 | uint32(b[j+3])<<24`. -/
def leWord (b : List Nat) (j : Nat) : Nat :=
  b.getD j 0 ||| (b.getD (j+1) 0) <<< 8 ||| (b.getD (j+2) 0) <<< 16 ||| (b.getD (j+3) 0) <<< 24

/-- Little-endian 64-bit word read at byte offset `j`
(`binary.LittleEndian.Uint64`). -/
def leQword (b : List Nat) (j : Nat) : Nat :=
  b.getD j 0 ||| (b.getD (j+1) 0) <<< 8 ||| (b.getD (j+2) 0) <<< 16 ||| (b.getD (j+3) 0) <<< 24 |||
  (b.getD (j+4) 0) <<< 32 ||| (b.getD (j+5) 0) <<< 40 ||| (b.getD (j+6) 0) <<< 48 ||| (b.getD (j+7) 0) <<< 56

/-- Little-endian encoding of one 32-bit word as four bytes:
`byte(v), byte(v>>8), byte(v>>16), byte(v>>24)`. -/
def wordBytes (v : Nat) : List Nat :=
  [v % 256, (v >>> 8) % 256, (v >>> 16) % 256, (v >>> 24) % 256]

/-- The sixteen 32-bit words of a Salsa20 state. -/
structure S where
  y0 : Nat
  y1 : Nat
  y2 : Nat
  y3 : Nat
  y4 : Nat
  y5 : Nat
  y6 : Nat
  y7 : Nat
  y8 : Nat
  y9 : Nat
  y10 : Nat
  y11 : Nat
  y12 : Nat
  y13 : Nat
  y14 : Nat
  y15 : Nat

/-- Decode sixteen little-endian words from a 64-byte buffer. -/
def decodeWords (b : List Nat) : S :=
  ⟨leWord b 0, leWord b 4, leWord b 8, leWord b 12,
   leWord b 16, leWord b 20, leWord b 24, leWord b 28,
   leWord b 32, leWord b 36, leWord b 40, leWord b 44,
   leWord b 48, leWord b 52, leWord b 56, leWord b 60⟩

/-- Encode the sixteen words back to 64 bytes, little-endian. -/
def encodeWords (s : S) : List Nat :=
  wordBytes s.y0 ++ wordBytes s.y1 ++ wordBytes s.y2 ++ wordBytes s.y3 ++
  wordBytes s.y4 ++ wordBytes s.y5 ++ wordBytes s.y6 ++ wordBytes s.y7 ++
  wordBytes s.y8 ++ wordBytes s.y9 ++ wordBytes s.y10 ++ wordBytes s.y11 ++
  wordBytes s.y12 ++ wordBytes s.y13 ++ wordBytes s.y14 ++ wordBytes s.y15

/-- The feedforward `w[i] += x[i]` of `scrypt.go` (accumulates into `w`). -/
def addWX (w x : S) : S :=
  ⟨(w.y0 + x.y0) % M32, (w.y1 + x.y1) % M32, (w.y2 + x.y2) % M32, (w.y3 + x.y3) % M32,
   (w.y4 + x.y4) % M32, (w.y5 + x.y5) % M32, (w.y6 + x.y6) % M32, (w.y7 + x.y7) % M32,
   (w.y8 + x.y8) % M32, (w.y9 + x.y9) % M32, (w.y10 + x.y10) % M32, (w.y11 + x.y11) % M32,
   (w.y12 + x.y12) % M32, (w.y13 + x.y13) % M32, (w.y14 + x.y14) % M32, (w.y15 + x.y15) % M32⟩

/-- The feedforward `x[i] += w[i]` of variant B (accumulates into `x`). -/
def addXW (w x : S) : S :=
  ⟨(x.y0 + w.y0) % M32, (x.y1 + w.y1) % M32, (x.y2 + w.y2) % M32, (x.y3 + w.y3) % M32,
   (x.y4 + w.y4) % M32, (x.y5 + w.y5) % M32, (x.y6 + w.y6) % M32, (x.y7 + w.y7) % M32,
   (x.y8 + w.y8) % M32, (x.y9 + w.y9) % M32, (x.y10 + w.y10) % M32, (x.y11 + w.y11) % M32,
   (x.y12 + w.y12) % M32, (x.y13 + w.y13) % M32, (x.y14 + w.y14) % M32, (x.y15 + w.y15) % M32⟩

/-- One (column, row) double round as written in `scrypt.go` (inline
rotations on named registers, sequential update order). -/
def doubleRoundA (s : S) : S :=
  let x0 := s.y0
  let x1 := s.y1
  let x2 := s.y2
  let x3 := s.y3
  let x4 := s.y4
  let x5 := s.y5
  let x6 := s.y6
  let x7 := s.y7
  let x8 := s.y8
  let x9 := s.y9
  let x10 := s.y10
  let x11 := s.y11
  let x12 := s.y12
  let x13 := s.y13
  let x14 := s.y14
  let x15 := s.y15
  let x4 := x4 ^^^ rotl32 ((x0 + x12) % M32) 7
  let x8 := x8 ^^^ rotl32 ((x4 + x0) % M32) 9
  let x12 := x12 ^^^ rotl32 ((x8 + x4) % M32) 13
  let x0 := x0 ^^^ rotl32 ((x12 + x8) % M32) 18
  let x9 := x9 ^^^ rotl32 ((x5 + x1) % M32) 7
  let x13 := x13 ^^^ rotl32 ((x9 + x5) % M32) 9
  let x1 := x1 ^^^ rotl32 ((x13 + x9) % M32) 13
  let x5 := x5 ^^^ rotl32 ((x1 + x13) % M32) 18
  let x14 := x14 ^^^ rotl32 ((x10 + x6) % M32) 7
  let x2 := x2 ^^^ rotl32 ((x14 + x10) % M32) 9
  let x6 := x6 ^^^ rotl32 ((x2 + x14) % M32) 13
  let x10 := x10 ^^^ rotl32 ((x6 + x2) % M32) 18
  let x3 := x3 ^^^ rotl32 ((x15 + x11) % M32) 7
  let x7 := x7 ^^^ rotl32 ((x3 + x15) % M32) 9
  let x11 := x11 ^^^ rotl32 ((x7 + x3) % M32) 13
  let x15 := x15 ^^^ rotl32 ((x11 + x7) % M32) 18
  let x1 := x1 ^^^ rotl32 ((x0 + x3) % M32) 7
  let x2 := x2 ^^^ rotl32 ((x1 + x0) % M32) 9
  let x3 := x3 ^^^ rotl32 ((x2 + x1) % M32) 13
  let x0 := x0 ^^^ rotl32 ((x3 + x2) % M32) 18
  let x6 := x6 ^^^ rotl32 ((x5 + x4) % M32) 7
  let x7 := x7 ^^^ rotl32 ((x6 + x5) % M32) 9
  let x4 := x4 ^^^ rotl32 ((x7 + x6) % M32) 13
  let x5 := x5 ^^^ rotl32 ((x4 + x7) % M32) 18
  let x11 := x11 ^^^ rotl32 ((x10 + x9) % M32) 7
  let x8 := x8 ^^^ rotl32 ((x11 + x10) % M32) 9
  let x9 := x9 ^^^ rotl32 ((x8 + x11) % M32) 13
  let x10 := x10 ^^^ rotl32 ((x9 + x8) % M32) 18
  let x12 := x12 ^^^ rotl32 ((x15 + x14) % M32) 7
  let x13 := x13 ^^^ rotl32 ((x12 + x15) % M32) 9
  let x14 := x14 ^^^ rotl32 ((x13 + x12) % M32) 13
  let x15 := x15 ^^^ rotl32 ((x14 + x13) % M32) 18
  ⟨x0, x1, x2, x3, x4, x5, x6, x7, x8, x9, x10, x11, x12, x13, x14, x15⟩

/-- One double round as written in variant B (`u` temporaries holding
the wrapped sums, otherwise the same update sequence). -/
def doubleRoundB (s : S) : S :=
  let x0 := s.y0
  let x1 := s.y1
  let x2 := s.y2
  let x3 := s.y3
  let x4 := s.y4
  let x5 := s.y5
  let x6 := s.y6
  let x7 := s.y7
  let x8 := s.y8
  let x9 := s.y9
  let x10 := s.y10
  let x11 := s.y11
  let x12 := s.y12
  let x13 := s.y13
  let x14 := s.y14
  let x15 := s.y15
  let u := (x0 + x12) % M32
  let x4 := x4 ^^^ rotl32 u 7
  let u := (x4 + x0) % M32
  let x8 := x8 ^^^ rotl32 u 9
  let u := (x8 + x4) % M32
  let x12 := x12 ^^^ rotl32 u 13
  let u := (x12 + x8) % M32
  let x0 := x0 ^^^ rotl32 u 18
  let u := (x5 + x1) % M32
  let x9 := x9 ^^^ rotl32 u 7
  let u := (x9 + x5) % M32
  let x13 := x13 ^^^ rotl32 u 9
  let u := (x13 + x9) % M32
  let x1 := x1 ^^^ rotl32 u 13
  let u := (x1 + x13) % M32
  let x5 := x5 ^^^ rotl32 u 18
  let u := (x10 + x6) % M32
  let x14 := x14 ^^^ rotl32 u 7
  let u := (x14 + x10) % M32
  let x2 := x2 ^^^ rotl32 u 9
  let u := (x2 + x14) % M32
  let x6 := x6 ^^^ rotl32 u 13
  let u := (x6 + x2) % M32
  let x10 := x10 ^^^ rotl32 u 18
  let u := (x15 + x11) % M32
  let x3 := x3 ^^^ rotl32 u 7
  let u := (x3 + x15) % M32
  let x7 := x7 ^^^ rotl32 u 9
  let u := (x7 + x3) % M32
  let x11 := x11 ^^^ rotl32 u 13
  let u := (x11 + x7) % M32
  let x15 := x15 ^^^ rotl32 u 18
  let u := (x0 + x3) % M32
  let x1 := x1 ^^^ rotl32 u 7
  let u := (x1 + x0) % M32
  let x2 := x2 ^^^ rotl32 u 9
  let u := (x2 + x1) % M32
  let x3 := x3 ^^^ rotl32 u 13
  let u := (x3 + x2) % M32
  let x0 := x0 ^^^ rotl32 u 18
  let u := (x5 + x4) % M32
  let x6 := x6 ^^^ rotl32 u 7
  let u := (x6 + x5) % M32
  let x7 := x7 ^^^ rotl32 u 9
  let u := (x7 + x6) % M32
  let x4 := x4 ^^^ rotl32 u 13
  let u := (x4 + x7) % M32
  let x5 := x5 ^^^ rotl32 u 18
  let u := (x10 + x9) % M32
  let x11 := x11 ^^^ rotl32 u 7
  let u := (x11 + x10) % M32
  let x8 := x8 ^^^ rotl32 u 9
  let u := (x8 + x11) % M32
  let x9 := x9 ^^^ rotl32 u 13
  let u := (x9 + x8) % M32
  let x10 := x10 ^^^ rotl32 u 18
  let u := (x15 + x14) % M32
  let x12 := x12 ^^^ rotl32 u 7
  let u := (x12 + x15) % M32
  let x13 := x13 ^^^ rotl32 u 9
  let u := (x13 + x12) % M32
  let x14 := x14 ^^^ rotl32 u 13
  let u := (x14 + x13) % M32
  let x15 := x15 ^^^ rotl32 u 18
  ⟨x0, x1, x2, x3, x4, x5, x6, x7, x8, x9, x10, x11, x12, x13, x14, x15⟩

/-- One double round as written in variant C (`x[i]` array cells updated
through the `rot` helper; same schedule). -/
def doubleRoundC (s : S) : S :=
  let x0 := s.y0
  let x1 := s.y1
  let x2 := s.y2
  let x3 := s.y3
  let x4 := s.y4
  let x5 := s.y5
  let x6 := s.y6
  let x7 := s.y7
  let x8 := s.y8
  let x9 := s.y9
  let x10 := s.y10
  let x11 := s.y11
  let x12 := s.y12
  let x13 := s.y13
  let x14 := s.y14
  let x15 := s.y15
  let x4 := x4 ^^^ rot ((x0 + x12) % M32) 7
  let x8 := x8 ^^^ rot ((x4 + x0) % M32) 9
  let x12 := x12 ^^^ rot ((x8 + x4) % M32) 13
  let x0 := x0 ^^^ rot ((x12 + x8) % M32) 18
  let x9 := x9 ^^^ rot ((x5 + x1) % M32) 7
  let x13 := x13 ^^^ rot ((x9 + x5) % M32) 9
  let x1 := x1 ^^^ rot ((x13 + x9) % M32) 13
  let x5 := x5 ^^^ rot ((x1 + x13) % M32) 18
  let x14 := x14 ^^^ rot ((x10 + x6) % M32) 7
  let x2 := x2 ^^^ rot ((x14 + x10) % M32) 9
  let x6 := x6 ^^^ rot ((x2 + x14) % M32) 13
  let x10 := x10 ^^^ rot ((x6 + x2) % M32) 18
  let x3 := x3 ^^^ rot ((x15 + x11) % M32) 7
  let x7 := x7 ^^^ rot ((x3 + x15) % M32) 9
  let x11 := x11 ^^^ rot ((x7 + x3) % M32) 13
  let x15 := x15 ^^^ rot ((x11 + x7) % M32) 18
  let x1 := x1 ^^^ rot ((x0 + x3) % M32) 7
  let x2 := x2 ^^^ rot ((x1 + x0) % M32) 9
  let x3 := x3 ^^^ rot ((x2 + x1) % M32) 13
  let x0 := x0 ^^^ rot ((x3 + x2) % M32) 18
  let x6 := x6 ^^^ rot ((x5 + x4) % M32) 7
  let x7 := x7 ^^^ rot ((x6 + x5) % M32) 9
  let x4 := x4 ^^^ rot ((x7 + x6) % M32) 13
  let x5 := x5 ^^^ rot ((x4 + x7) % M32) 18
  let x11 := x11 ^^^ rot ((x10 + x9) % M32) 7
  let x8 := x8 ^^^ rot ((x11 + x10) % M32) 9
  let x9 := x9 ^^^ rot ((x8 + x11) % M32) 13
  let x10 := x10 ^^^ rot ((x9 + x8) % M32) 18
  let x12 := x12 ^^^ rot ((x15 + x14) % M32) 7
  let x13 := x13 ^^^ rot ((x12 + x15) % M32) 9
  let x14 := x14 ^^^ rot ((x13 + x12) % M32) 13
  let x15 := x15 ^^^ rot ((x14 + x13) % M32) 18
  ⟨x0, x1, x2, x3, x4, x5, x6, x7, x8, x9, x10, x11, x12, x13, x14, x15⟩

/-- The specification's quarter-round (§4.A): on indices `(a,b,c,d)`,
`x[b] ^= rotl32(x[a]+x[d], 7); x[c] ^= rotl32(x[b]+x[a], 9);
x[d] ^= rotl32(x[c]+x[b], 13); x[a] ^= rotl32(x[d]+x[c], 18)`,
additions modulo `2^32`. -/
def qround (a b c d : Nat) : Nat × Nat × Nat × Nat :=
  let b2 := b ^^^ rotl32 ((a + d) % M32) 7
  let c2 := c ^^^ rotl32 ((b2 + a) % M32) 9
  let d2 := d ^^^ rotl32 ((c2 + b2) % M32) 13
  let a2 := a ^^^ rotl32 ((d2 + c2) % M32) 18
  (a2, b2, c2, d2)

/-- The specification's double round: the column step on index tuples
`(0,4,8,12),(5,9,13,1),(10,14,2,6),(15,3,7,11)` followed by the row step
on `(0,1,2,3),(5,6,7,4),(10,11,8,9),(15,12,13,14)`. -/
def doubleRoundSpec (s : S) : S :=
  let c1 := qround s.y0 s.y4 s.y8 s.y12
  let c2 := qround s.y5 s.y9 s.y13 s.y1
  let c3 := qround s.y10 s.y14 s.y2 s.y6
  let c4 := qround s.y15 s.y3 s.y7 s.y11
  let r1 := qround c1.1 c2.2.2.2 c3.2.2.1 c4.2.1
  let r2 := qround c2.1 c3.2.2.2 c4.2.2.1 c1.2.1
  let r3 := qround c3.1 c4.2.2.2 c1.2.2.1 c2.2.1
  let r4 := qround c4.1 c1.2.2.2 c2.2.2.1 c3.2.1
  ⟨r1.1, r1.2.1, r1.2.2.1, r1.2.2.2,
   r2.2.2.2, r2.1, r2.2.1, r2.2.2.1,
   r3.2.2.1, r3.2.2.2, r3.1, r3.2.1,
   r4.2.1, r4.2.2.1, r4.2.2.2, r4.1⟩

namespace scryptA

/-- `salsa` of `scrypt.go`: decode, four double rounds, feedforward
`w[i] += x[i]`, encode. -/
def salsa (b : List Nat) : List Nat :=
  let w := decodeWords b
  let x := doubleRoundA (doubleRoundA (doubleRoundA (doubleRoundA w)))
  encodeWords (addWX w x)

end scryptA

namespace scryptB

/-- `salsa` of variant B: decode, four double rounds with `u`
temporaries, feedforward `x[i] += w[i]`, encode. -/
def salsa (b : List Nat) : List Nat :=
  let w := decodeWords b
  let x := doubleRoundB (doubleRoundB (doubleRoundB (doubleRoundB w)))
  encodeWords (addXW w x)

end scryptB

namespace scryptC

/-- `salsa` of variant C: decode, four double rounds through `rot`,
output `w[i] + x[i]`, encode. -/
def salsa (b : List Nat) : List Nat :=
  let w := decodeWords b
  let x := doubleRoundC (doubleRoundC (doubleRoundC (doubleRoundC w)))
  encodeWords (addWX w x)

end scryptC

/-- Salsa20/8 as the specification states it (§4.A): read sixteen
little-endian words, perform 4 double-rounds of `qround` on the standard
schedule, add the saved input back (`x[i] += w[i]`), write back
little-endian. -/
def salsaSpec (b : List Nat) : List Nat :=
  let w := decodeWords b
  let x := doubleRoundSpec (doubleRoundSpec (doubleRoundSpec (doubleRoundSpec w)))
  encodeWords (addXW w x)

theorem doubleRoundB_eq : doubleRoundB = doubleRoundA := rfl

theorem doubleRoundC_eq : doubleRoundC = doubleRoundA := rfl

theorem doubleRoundSpec_eq : doubleRoundSpec = doubleRoundA := rfl

theorem addXW_eq_addWX (w x : S) : addXW w x = addWX w x := by
  simp only [addXW, addWX, Nat.add_comm]

theorem salsaB_eq_salsaA (b : List Nat) : scryptB.salsa b = scryptA.salsa b := by
  simp only [scryptB.salsa, scryptA.salsa, doubleRoundB_eq, addXW_eq_addWX]

theorem salsaC_eq_salsaA (b : List Nat) : scryptC.salsa b = scryptA.salsa b := by
  simp only [scryptC.salsa, scryptA.salsa, doubleRoundC_eq]

theorem salsaA_eq_salsaSpec (b : List Nat) : scryptA.salsa b = salsaSpec b := by
  simp only [scryptA.salsa, salsaSpec, doubleRoundSpec_eq, addXW_eq_addWX]

/-! ## Buffer primitives -/

/-- XOR of two byte buffers, pointwise (`blockXOR` restricted to equal
lengths; the result has the length of the shorter buffer). -/
def xorBytes (a c : List Nat) : List Nat :=
  List.zipWith (fun u v => u ^^^ v) a c

/-- `blockXOR(dst, src, n)`: XOR the first `n` bytes of `src` into the
first `n` bytes of `dst`, keeping the rest of `dst`. -/
def xorInto (dst src : List Nat) (n : Nat) : List Nat :=
  List.zipWith (fun u v => u ^^^ v) (dst.take n) (src.take n) ++ dst.drop n

/-- `copy(dst[off:], src)`: overwrite `dst` starting at byte offset
`off` with all of `src` (models an in-place write that fits). -/
def writeBytes (dst : List Nat) (off : Nat) (src : List Nat) : List Nat :=
  dst.take off ++ src ++ dst.drop (off + src.length)

/-! ## blockMix, integerify, smix — source embeddings

The three variants differ only in which `salsa` they call (and, in the
source, in `[64]byte`-array versus slice plumbing, which the functional
embedding renders identically), so `blockMix`, `smix` are instantiated
per namespace with that namespace's `salsa`. -/

namespace scryptA

/-- `blockMix(b, y, r)`: seeds `x` with the last 64-byte sub-block of
`b`; for `i = 0 … 2r-1` XORs sub-block `i` of `b` into `x`, applies
`salsa`, writes `x` to `y[i*64:]`; then copies the even-indexed
sub-blocks of `y` to the first half of `b` and the odd-indexed ones to
the second half.  Returns the new contents of `b` and of `y`. -/
def blockMix (b y : List Nat) (r : Nat) : List Nat × List Nat :=
  let x0 := (b.drop ((2*r-1)*64)).take 64
  let q := (List.range (2*r)).foldl (fun q i =>
      let x := salsa (xorInto q.1 (b.drop (i*64)) 64)
      (x, writeBytes q.2 (i*64) x)) (x0, y)
  let b1 := (List.range r).foldl (fun bb i =>
      writeBytes bb (i*64) ((q.2.drop (i*2*64)).take 64)) b
  let b2 := (List.range r).foldl (fun bb i =>
      writeBytes bb ((i+r)*64) ((q.2.drop ((i*2+1)*64)).take 64)) b1
  (b2, q.2)

/-- `integerify(b, r)`: little-endian `Uint64` at offset `(2r-1)*64`. -/
def integerify (b : List Nat) (r : Nat) : Nat :=
  leQword b ((2*r-1)*64)

/-- `smix(b, r, N, v, xy)`: splits `xy` into `x` (first `128r` bytes)
and `y`, copies `b` into `x`, runs the fill loop (store `x` into
`v[i*128r:]`, then `blockMix`) and the mix loop (`j := integerify(x) &
(N-1)`, XOR `v[j*128r:]` into `x`, then `blockMix`), and copies `x`
back into `b`.  Returns the new contents of `b`, of `v` and of `xy`. -/
def smix (b : List Nat) (r N : Nat) (v xy : List Nat) : List Nat × List Nat × List Nat :=
  let x0 := writeBytes (xy.take (128*r)) 0 (b.take (128*r))
  let y0 := xy.drop (128*r)
  let sf := (List.range N).foldl (fun s i =>
      let v2 := writeBytes s.2.2 (i*(128*r)) (s.1.take (128*r))
      let q := blockMix s.1 s.2.1 r
      (q.1, q.2, v2)) (x0, y0, v)
  let sm := (List.range N).foldl (fun t _ =>
      let j := integerify t.1 r &&& (N-1)
      let x2 := xorInto t.1 (sf.2.2.drop (j*(128*r))) (128*r)
      blockMix x2 t.2 r) (sf.1, sf.2.1)
  (writeBytes b 0 (sm.1.take (128*r)), sf.2.2, sm.1 ++ sm.2)

end scryptA

namespace scryptB

/-- Variant B `blockMix` (array-based `x`, otherwise identical). -/
def blockMix (b y : List Nat) (r : Nat) : List Nat × List Nat :=
  let x0 := (b.drop ((2*r-1)*64)).take 64
  let q := (List.range (2*r)).foldl (fun q i =>
      let x := salsa (xorInto q.1 (b.drop (i*64)) 64)
      (x, writeBytes q.2 (i*64) x)) (x0, y)
  let b1 := (List.range r).foldl (fun bb i =>
      writeBytes bb (i*64) ((q.2.drop (i*2*64)).take 64)) b
  let b2 := (List.range r).foldl (fun bb i =>
      writeBytes bb ((i+r)*64) ((q.2.drop ((i*2+1)*64)).take 64)) b1
  (b2, q.2)

/-- Variant B `integerify`. -/
def integerify (b : List Nat) (r : Nat) : Nat :=
  leQword b ((2*r-1)*64)

/-- Variant B `smix`. -/
def smix (b : List Nat) (r N : Nat) (v xy : List Nat) : List Nat × List Nat × List Nat :=
  let x0 := writeBytes (xy.take (128*r)) 0 (b.take (128*r))
  let y0 := xy.drop (128*r)
  let sf := (List.range N).foldl (fun s i =>
      let v2 := writeBytes s.2.2 (i*(128*r)) (s.1.take (128*r))
      let q := blockMix s.1 s.2.1 r
      (q.1, q.2, v2)) (x0, y0, v)
  let sm := (List.range N).foldl (fun t _ =>
      let j := integerify t.1 r &&& (N-1)
      let x2 := xorInto t.1 (sf.2.2.drop (j*(128*r))) (128*r)
      blockMix x2 t.2 r) (sf.1, sf.2.1)
  (writeBytes b 0 (sm.1.take (128*r)), sf.2.2, sm.1 ++ sm.2)

end scryptB

namespace scryptC

/-- Variant C `blockMix`. -/
def blockMix (b y : List Nat) (r : Nat) : List Nat × List Nat :=
  let x0 := (b.drop ((2*r-1)*64)).take 64
  let q := (List.range (2*r)).foldl (fun q i =>
      let x := salsa (xorInto q.1 (b.drop (i*64)) 64)
      (x, writeBytes q.2 (i*64) x)) (x0, y)
  let b1 := (List.range r).foldl (fun bb i =>
      writeBytes bb (i*64) ((q.2.drop (i*2*64)).take 64)) b
  let b2 := (List.range r).foldl (fun bb i =>
      writeBytes bb ((i+r)*64) ((q.2.drop ((i*2+1)*64)).take 64)) b1
  (b2, q.2)

/-- Variant C `integerify`. -/
def integerify (b : List Nat) (r : Nat) : Nat :=
  leQword b ((2*r-1)*64)

/-- Variant C `smix`. -/
def smix (b : List Nat) (r N : Nat) (v xy : List Nat) : List Nat × List Nat × List Nat :=
  let x0 := writeBytes (xy.take (128*r)) 0 (b.take (128*r))
  let y0 := xy.drop (128*r)
  let sf := (List.range N).foldl (fun s i =>
      let v2 := writeBytes s.2.2 (i*(128*r)) (s.1.take (128*r))
      let q := blockMix s.1 s.2.1 r
      (q.1, q.2, v2)) (x0, y0, v)
  let sm := (List.range N).foldl (fun t _ =>
      let j := integerify t.1 r &&& (N-1)
      let x2 := xorInto t.1 (sf.2.2.drop (j*(128*r))) (128*r)
      blockMix x2 t.2 r) (sf.1, sf.2.1)
  (writeBytes b 0 (sm.1.take (128*r)), sf.2.2, sm.1 ++ sm.2)

end scryptC

/-! ## Key — source embeddings -/

/-- Result of a Go function returning `([]byte, error)`, with a
constructor for a run-time panic (integer division by zero). -/
inductive GoResult where
  | ok (key : List Nat) : GoResult
  | err (msg : String) : GoResult
  | panic : GoResult
deriving DecidableEq

/-- `maxInt = 1<<31 - 1`. -/
def maxInt : Int := 2147483647

/-- Go conversion `uint64(x)` of a 64-bit signed value: reduction
modulo `2^64` (nonnegative). -/
def u64 (x : Int) : Nat := (x % 18446744073709551616).toNat

/-- The size check
`uint64(r)*uint64(p) >= 1<<30 || r > maxInt/128/p || r > maxInt/256 || N > maxInt/128/r`
with Go's left-to-right short-circuit evaluation.  `none` models the
run-time panic from a division by zero (`p = 0` or `r = 0`);
`some true` means the parameters are rejected. -/
def sizeCheck (N r p : Int) : Option Bool :=
  if (u64 r * u64 p) % 18446744073709551616 ≥ 1073741824 then some true
  else if p = 0 then none
  else if r > Int.tdiv (Int.tdiv maxInt 128) p then some true
  else if r > Int.tdiv maxInt 256 then some true
  else if r = 0 then none
  else if N > Int.tdiv (Int.tdiv maxInt 128) r then some true
  else some false

/-- The type of the external PBKDF2-HMAC-SHA256 primitive:
`pb password salt iterations dkLen`. -/
def PB : Type := List Nat → List Nat → Nat → Int → List Nat

namespace scryptA

/-- `Key(password, salt, N, r, p, keyLen)` of `scrypt.go`: validate
`N`, run the size check, let `b := pbkdf2(password, salt, 1, p*128*r)`,
apply `smix` in place to each `128r`-byte slice of `b` (reusing the
scratch buffers `v` and `xy` across the `p` passes), and return
`pbkdf2(password, b, 1, keyLen)`. -/
def Key (pb : PB) (password salt : List Nat) (N r p keyLen : Int) : GoResult :=
  if N ≤ 1 ∨ (N.toNat &&& (N.toNat - 1)) ≠ 0 then
    GoResult.err "scrypt: N must be > 1 and a power of 2"
  else
    match sizeCheck N r p with
    | none => GoResult.panic
    | some true => GoResult.err "scrypt: parameters are too large"
    | some false =>
      let rn := r.toNat
      let Nn := N.toNat
      let pn := p.toNat
      let xy0 : List Nat := List.replicate (256*rn) 0
      let v0 : List Nat := List.replicate (128*rn*Nn) 0
      let b0 := pb password salt 1 (p*128*r)
      let st := (List.range pn).foldl (fun st i =>
          let res := smix ((st.1.drop (i*(128*rn))).take (128*rn)) rn Nn st.2.1 st.2.2
          (writeBytes st.1 (i*(128*rn)) res.1, res.2.1, res.2.2)) (b0, v0, xy0)
      GoResult.ok (pb password st.1 1 keyLen)

end scryptA

namespace scryptB

/-- Variant B `Key` (identical source text to `scrypt.go`'s). -/
def Key (pb : PB) (password salt : List Nat) (N r p keyLen : Int) : GoResult :=
  if N ≤ 1 ∨ (N.toNat &&& (N.toNat - 1)) ≠ 0 then
    GoResult.err "scrypt: N must be > 1 and a power of 2"
  else
    match sizeCheck N r p with
    | none => GoResult.panic
    | some true => GoResult.err "scrypt: parameters are too large"
    | some false =>
      let rn := r.toNat
      let Nn := N.toNat
      let pn := p.toNat
      let xy0 : List Nat := List.replicate (256*rn) 0
      let v0 : List Nat := List.replicate (128*rn*Nn) 0
      let b0 := pb password salt 1 (p*128*r)
      let st := (List.range pn).foldl (fun st i =>
          let res := smix ((st.1.drop (i*(128*rn))).take (128*rn)) rn Nn st.2.1 st.2.2
          (writeBytes st.1 (i*(128*rn)) res.1, res.2.1, res.2.2)) (b0, v0, xy0)
      GoResult.ok (pb password st.1 1 keyLen)

end scryptB

namespace scryptC

/-- Variant C `Key`: its first check is `N <= 0 || N&(N-1) != 0`
(rather than `N <= 1`), so `N = 1` passes validation. -/
def Key (pb : PB) (password salt : List Nat) (N r p keyLen : Int) : GoResult :=
  if N ≤ 0 ∨ (N.toNat &&& (N.toNat - 1)) ≠ 0 then
    GoResult.err "scrypt: N must be > 1 and a power of 2"
  else
    match sizeCheck N r p with
    | none => GoResult.panic
    | some true => GoResult.err "scrypt: parameters are too large"
    | some false =>
      let rn := r.toNat
      let Nn := N.toNat
      let pn := p.toNat
      let xy0 : List Nat := List.replicate (256*rn) 0
      let v0 : List Nat := List.replicate (128*rn*Nn) 0
      let b0 := pb password salt 1 (p*128*r)
      let st := (List.range pn).foldl (fun st i =>
          let res := smix ((st.1.drop (i*(128*rn))).take (128*rn)) rn Nn st.2.1 st.2.2
          (writeBytes st.1 (i*(128*rn)) res.1, res.2.1, res.2.2)) (b0, v0, xy0)
      GoResult.ok (pb password st.1 1 keyLen)

end scryptC

/-! ## Specification-side definitions (§4.B–§4.D, §4.F) -/

/-- The chained `X` values of §4.B step 2: starting from `x`, for each
sub-block `blk` in turn, `X ← Salsa20/8(X XOR blk)`; the list collects
the successive values of `X` (these are the sub-blocks of `Y`). -/
def specBlockMixYs (x : List Nat) : List (List Nat) → List (List Nat)
  | [] => []
  | blk :: rest =>
      let x2 := salsaSpec (xorBytes x blk)
      x2 :: specBlockMixYs x2 rest

/-- The final `X` of the chain of §4.B step 2. -/
def chainX (x : List Nat) : List (List Nat) → List Nat
  | [] => x
  | blk :: rest => chainX (salsaSpec (xorBytes x blk)) rest

/-- The first `k` 64-byte sub-blocks `B[i*64 : (i+1)*64]` of a buffer. -/
def subBlockList (b : List Nat) (k : Nat) : List (List Nat) :=
  (List.range k).map (fun i => (b.drop (i*64)).take 64)

/-- BlockMix as the specification states it (§4.B): seed `X` with the
last 64-byte sub-block, chain `X ← Salsa20/8(X XOR B_i)` writing each
`X` as a sub-block of `Y`, then output the even-indexed sub-blocks of
`Y` followed by the odd-indexed ones. -/
def specBlockMix (b : List Nat) (r : Nat) : List Nat :=
  let x := (b.drop ((2*r-1)*64)).take 64
  let ys := specBlockMixYs x (subBlockList b (2*r))
  ((List.range r).map (fun i => ys.getD (2*i) [])).flatten ++
  ((List.range r).map (fun i => ys.getD (2*i+1) [])).flatten

/-- The value of `X` after `n` iterations of the fill phase (§4.D
step 2): `X ← BlockMix(X)` applied `n` times. -/
def specSmixFillX (r : Nat) : Nat → List Nat → List Nat
  | 0, x => x
  | n+1, x => specSmixFillX r n (specBlockMix x r)

/-- The scratch table `V` built by the fill phase (§4.D step 2):
entry `i` is the value of `X` before the `i`-th BlockMix. -/
def specSmixV (r : Nat) : Nat → List Nat → List (List Nat)
  | 0, _ => []
  | n+1, x => x :: specSmixV r n (specBlockMix x r)

/-- The value of `X` after `n` iterations of the mix phase (§4.D
step 3): `j ← Integerify(X) AND mask`; `X ← BlockMix(X XOR V[j])`. -/
def specSmixMixX (vt : List (List Nat)) (r mask : Nat) : Nat → List Nat → List Nat
  | 0, x => x
  | n+1, x =>
      let j := leQword x ((2*r-1)*64) &&& mask
      specSmixMixX vt r mask n (specBlockMix (xorBytes x (vt.getD j [])) r)

/-- SMix as the specification states it (§4.D): copy `B` into `X`, run
`N` fill iterations building `V`, then `N` mix iterations with mask
`N-1`, and return the final `X`. -/
def specSmix (b : List Nat) (r N : Nat) : List Nat :=
  specSmixMixX (specSmixV r N b) r (N-1) N (specSmixFillX r N b)

/-- `derive_key` as the specification states it (§4.F), for parameters
the validator accepts: `B ← pbkdf2(password, salt, 1, p*128*r)`; apply
SMix to each `128r`-byte slice of `B` independently; feed the
concatenation to `pbkdf2(password, ·, 1, keyLen)`. -/
def specKey (pb : PB) (password salt : List Nat) (N r p keyLen : Int) : List Nat :=
  let rn := r.toNat
  let Nn := N.toNat
  let pn := p.toNat
  let b := pb password salt 1 (p*128*r)
  let b2 := ((List.range pn).map (fun i =>
      specSmix ((b.drop (i*(128*rn))).take (128*rn)) rn Nn)).flatten
  pb password b2 1 keyLen

/-- A concrete stand-in for the external PBKDF2 primitive, used in
witness instances: returns `dkLen` zero bytes. -/
def pbZero : PB := fun _ _ _ dkLen => List.replicate dkLen.toNat 0

/-! ## List lemmas about writes and flattening -/

theorem writeBytes_length (dst src : List Nat) (off : Nat)
    (h : off + src.length ≤ dst.length) :
    (writeBytes dst off src).length = dst.length := by
  simp [writeBytes]
  omega

theorem writeBytes_exact (P T src : List Nat) :
    writeBytes (P ++ T) P.length src = P ++ src ++ T.drop src.length := by
  unfold writeBytes
  rw [List.take_append_eq_append_take, List.take_length, Nat.sub_self, List.take_zero,
    List.append_nil, List.drop_append_eq_append_drop,
    List.drop_eq_nil_of_le (show P.length ≤ P.length + src.length by omega),
    Nat.add_sub_cancel_left, List.nil_append, List.append_assoc]

theorem writeBytes_at (P T src : List Nat) (off : Nat) (hoff : off = P.length) :
    writeBytes (P ++ T) off src = P ++ src ++ T.drop src.length := by
  subst hoff
  exact writeBytes_exact P T src

theorem flatten_length_const (L : Nat) :
    ∀ (bs : List (List Nat)), (∀ z ∈ bs, z.length = L) → bs.flatten.length = bs.length * L
  | [], _ => by simp
  | hd :: tl, h => by
    have hh : hd.length = L := h hd (by simp)
    have ht := flatten_length_const L tl (fun z hz => h z (by simp [hz]))
    simp only [List.flatten_cons, List.length_append, List.length_cons, hh, ht, Nat.succ_mul]
    omega

theorem flatten_slice (L : Nat) :
    ∀ (bs : List (List Nat)) (j : Nat), (∀ z ∈ bs, z.length = L) → j < bs.length →
      (bs.flatten.drop (j*L)).take L = bs.getD j []
  | [], j, _, hj => by simp at hj
  | hd :: tl, 0, hz, _ => by
    have hh : hd.length = L := hz hd (by simp)
    rw [List.flatten_cons, Nat.zero_mul, List.drop_zero, List.take_append_eq_append_take,
      ← hh, List.take_length, Nat.sub_self, List.take_zero, List.append_nil, List.getD_cons_zero]
  | hd :: tl, j+1, hz, hj => by
    have hh : hd.length = L := hz hd (by simp)
    have ht := flatten_slice L tl j (fun z hz2 => hz z (by simp [hz2])) (by simp at hj; omega)
    rw [List.flatten_cons, List.drop_append_eq_append_drop,
      List.drop_eq_nil_of_le (show hd.length ≤ (j+1)*L by rw [hh, Nat.succ_mul]; omega),
      List.nil_append, List.getD_cons_succ, show (j+1)*L - hd.length = j*L by rw [hh, Nat.succ_mul]; omega,
      ht]

theorem foldl_writeBytes (g : Nat → List Nat) (L : Nat) :
    ∀ (n : Nat) (b : List Nat) (base : Nat), (∀ i, i < n → (g i).length = L) →
      base + n*L ≤ b.length →
      (List.range n).foldl (fun bb i => writeBytes bb (base + i*L) (g i)) b
        = b.take base ++ ((List.range n).map g).flatten ++ b.drop (base + n*L)
  | 0, b, base, _, h => by
    simp
  | n+1, b, base, hg, h => by
    rw [Nat.succ_mul] at h
    have hgn : (g n).length = L := hg n (by omega)
    have hmem : ∀ z ∈ (List.range n).map g, z.length = L := by
      intro z hz
      obtain ⟨i, hi, rfl⟩ := List.mem_map.mp hz
      exact hg i (by have := List.mem_range.mp hi; omega)
    have hF : ((List.range n).map g).flatten.length = n*L := by
      rw [flatten_length_const L _ hmem, List.length_map, List.length_range]
    rw [List.range_succ, List.foldl_append, List.foldl_cons, List.foldl_nil,
      foldl_writeBytes g L n b base (fun i hi => hg i (by omega)) (by omega)]
    have hP : (b.take base ++ ((List.range n).map g).flatten).length = base + n*L := by
      simp [hF]
      omega
    rw [show base + n*L = (b.take base ++ ((List.range n).map g).flatten).length from hP.symm,
      writeBytes_exact, List.drop_drop, List.map_append, List.flatten_append, hgn]
    simp only [List.map_cons, List.map_nil, List.flatten_cons, List.flatten_nil, List.append_nil]
    rw [hP, Nat.succ_mul]
    simp [List.append_assoc, Nat.add_assoc]

/-! ## Structural lemmas about the spec-side definitions -/

theorem salsaSpec_length (b : List Nat) : (salsaSpec b).length = 64 := by
  simp [salsaSpec, encodeWords, wordBytes]

theorem xorInto_eq_xorBytes (dst src : List Nat) (n : Nat) (h : dst.length = n) :
    xorInto dst src n = xorBytes dst (src.take n) := by
  rw [xorInto, xorBytes, ← h, List.take_length, List.drop_length, List.append_nil]

theorem xorBytes_length (a c : List Nat) : (xorBytes a c).length = min a.length c.length := by
  simp [xorBytes]

theorem specBlockMixYs_length (bs : List (List Nat)) :
    ∀ x, (specBlockMixYs x bs).length = bs.length := by
  induction bs with
  | nil => intro x; rfl
  | cons hd tl ih => intro x; simp [specBlockMixYs, ih]

theorem specBlockMixYs_mem (bs : List (List Nat)) :
    ∀ x, ∀ z ∈ specBlockMixYs x bs, z.length = 64 := by
  induction bs with
  | nil => intro x z hz; simp [specBlockMixYs] at hz
  | cons hd tl ih =>
    intro x z hz
    rw [specBlockMixYs] at hz
    rcases List.mem_cons.mp hz with h | h
    · rw [h]; exact salsaSpec_length _
    · exact ih _ z h

theorem chainX_append (blk : List Nat) (l : List (List Nat)) :
    ∀ x, chainX x (l ++ [blk]) = salsaSpec (xorBytes (chainX x l) blk) := by
  induction l with
  | nil => intro x; rfl
  | cons hd tl ih => intro x; simp only [List.cons_append, List.append_eq, chainX, ih]

theorem specBlockMixYs_append (blk : List Nat) (l : List (List Nat)) :
    ∀ x, specBlockMixYs x (l ++ [blk])
      = specBlockMixYs x l ++ [salsaSpec (xorBytes (chainX x l) blk)] := by
  induction l with
  | nil => intro x; rfl
  | cons hd tl ih =>
    intro x
    simp only [List.cons_append, List.append_eq, specBlockMixYs, chainX, ih]

theorem chainX_length (l : List (List Nat)) :
    ∀ x, x.length = 64 → (chainX x l).length = 64 := by
  induction l with
  | nil => intro x hx; exact hx
  | cons hd tl ih => intro x hx; exact ih _ (salsaSpec_length _)

theorem subBlockList_succ (b : List Nat) (n : Nat) :
    subBlockList b (n+1) = subBlockList b n ++ [(b.drop (n*64)).take 64] := by
  simp [subBlockList, List.range_succ]

theorem subBlockList_length (b : List Nat) (n : Nat) : (subBlockList b n).length = n := by
  simp [subBlockList]

/-- The inner loop of `blockMix` computes the specification's `X` chain
and fills `y` with the `Y` sub-blocks. -/
theorem blockMixLoop_eq (b : List Nat) :
    ∀ (n : Nat) (x0 y : List Nat), x0.length = 64 → n*64 ≤ y.length →
    (List.range n).foldl (fun q i =>
        let x := scryptA.salsa (xorInto q.1 (b.drop (i*64)) 64)
        (x, writeBytes q.2 (i*64) x)) (x0, y)
      = (chainX x0 (subBlockList b n),
         (specBlockMixYs x0 (subBlockList b n)).flatten ++ y.drop (n*64)) := by
  intro n
  induction n with
  | zero => intro x0 y hx0 hy; simp [subBlockList, chainX, specBlockMixYs]
  | succ n ih =>
    intro x0 y hx0 hy
    rw [Nat.succ_mul] at hy
    rw [List.range_succ, List.foldl_append, List.foldl_cons, List.foldl_nil,
      ih x0 y hx0 (by omega)]
    have hXn : (chainX x0 (subBlockList b n)).length = 64 := chainX_length _ _ hx0
    have hxi : xorInto (chainX x0 (subBlockList b n)) (b.drop (n*64)) 64
        = xorBytes (chainX x0 (subBlockList b n)) ((b.drop (n*64)).take 64) :=
      xorInto_eq_xorBytes _ _ _ hXn
    have hF : ((specBlockMixYs x0 (subBlockList b n)).flatten).length = n*64 := by
      rw [flatten_length_const 64 _ (specBlockMixYs_mem _ _), specBlockMixYs_length,
        subBlockList_length]
    simp only [hxi, salsaA_eq_salsaSpec]
    rw [show (n*64 : Nat) = ((specBlockMixYs x0 (subBlockList b n)).flatten).length from hF.symm,
      writeBytes_exact, List.drop_drop, salsaSpec_length,
      subBlockList_succ, chainX_append, specBlockMixYs_append,
      List.flatten_append]
    simp only [List.flatten_cons, List.flatten_nil, List.append_nil, hF]
    rw [Nat.succ_mul]

theorem foldl_writeBytes_zero (g : Nat → List Nat) (L n : Nat) (b : List Nat)
    (hg : ∀ i, i < n → (g i).length = L) (h : n*L ≤ b.length) :
    (List.range n).foldl (fun bb i => writeBytes bb (i*L) (g i)) b
      = ((List.range n).map g).flatten ++ b.drop (n*L) := by
  rw [List.foldl_ext (fun bb i => writeBytes bb (i*L) (g i))
      (fun bb i => writeBytes bb (0 + i*L) (g i)) b
      (by intro a i hi
          show writeBytes a (i*L) (g i) = writeBytes a (0 + i*L) (g i)
          rw [Nat.zero_add]),
    foldl_writeBytes g L n b 0 hg (by omega), List.take_zero, Nat.zero_add, List.nil_append]

theorem foldl_writeBytes_base (g : Nat → List Nat) (L k n : Nat) (b : List Nat)
    (hg : ∀ i, i < n → (g i).length = L) (h : k*L + n*L ≤ b.length) :
    (List.range n).foldl (fun bb i => writeBytes bb ((i+k)*L) (g i)) b
      = b.take (k*L) ++ ((List.range n).map g).flatten ++ b.drop (k*L + n*L) := by
  rw [List.foldl_ext (fun bb i => writeBytes bb ((i+k)*L) (g i))
      (fun bb i => writeBytes bb (k*L + i*L) (g i)) b
      (by intro a i hi
          show writeBytes a ((i+k)*L) (g i) = writeBytes a (k*L + i*L) (g i)
          rw [show (i+k)*L = k*L + i*L by ring]),
    foldl_writeBytes g L n b (k*L) hg h]

/-- `blockMix` of `scrypt.go` agrees with the specification's BlockMix,
and leaves the `Y` sub-blocks (flattened) in the scratch buffer. -/
theorem blockMixA_parts (b y : List Nat) (r : Nat) (hr : 1 ≤ r)
    (hb : b.length = 128*r) (hy : y.length = 128*r) :
    scryptA.blockMix b y r
      = (specBlockMix b r,
         (specBlockMixYs ((b.drop ((2*r-1)*64)).take 64) (subBlockList b (2*r))).flatten) := by
  have hx0 : ((b.drop ((2*r-1)*64)).take 64).length = 64 := by
    simp [hb]
    omega
  set x0 := (b.drop ((2*r-1)*64)).take 64 with hx0def
  set ys := specBlockMixYs x0 (subBlockList b (2*r)) with hysdef
  have hysm : ∀ z ∈ ys, z.length = 64 := specBlockMixYs_mem _ _
  have hysl : ys.length = 2*r := by rw [hysdef, specBlockMixYs_length, subBlockList_length]
  have hFlen : ys.flatten.length = 2*r*64 := by rw [flatten_length_const 64 _ hysm, hysl]
  have hloop := blockMixLoop_eq b (2*r) x0 y hx0 (by omega)
  rw [List.drop_eq_nil_of_le (show y.length ≤ 2*r*64 by omega), List.append_nil, ← hysdef] at hloop
  have hg1 : ∀ i, i < r → ((ys.flatten.drop (i*2*64)).take 64).length = 64 := by
    intro i hi
    simp [hFlen]
    omega
  have hg2 : ∀ i, i < r → ((ys.flatten.drop ((i*2+1)*64)).take 64).length = 64 := by
    intro i hi
    simp [hFlen]
    omega
  have hG1m : ∀ z ∈ (List.range r).map (fun i => (ys.flatten.drop (i*2*64)).take 64), z.length = 64 := by
    intro z hz
    obtain ⟨i, hi, rfl⟩ := List.mem_map.mp hz
    exact hg1 i (List.mem_range.mp hi)
  have hG1len : (((List.range r).map (fun i => (ys.flatten.drop (i*2*64)).take 64)).flatten).length = r*64 := by
    rw [flatten_length_const 64 _ hG1m, List.length_map, List.length_range]
  have hfold1 := foldl_writeBytes_zero (fun i => (ys.flatten.drop (i*2*64)).take 64) 64 r b hg1 (by omega)
  have hb1len : ((((List.range r).map (fun i => (ys.flatten.drop (i*2*64)).take 64)).flatten) ++ b.drop (r*64)).length = 128*r := by
    simp [hG1len, hb]
    omega
  have hfold2 := foldl_writeBytes_base (fun i => (ys.flatten.drop ((i*2+1)*64)).take 64) 64 r r
      ((((List.range r).map (fun i => (ys.flatten.drop (i*2*64)).take 64)).flatten) ++ b.drop (r*64))
      hg2 (by omega)
  simp only [scryptA.blockMix, hloop, hfold1, hfold2]
  rw [List.drop_eq_nil_of_le (show ((((List.range r).map (fun i => (ys.flatten.drop (i*2*64)).take 64)).flatten) ++ b.drop (r*64)).length ≤ r*64 + r*64 by omega),
    List.append_nil,
    List.take_append_eq_append_take, ← hG1len, List.take_length, Nat.sub_self, List.take_zero,
    List.append_nil]
  simp only [specBlockMix, ← hx0def, ← hysdef, Prod.mk.injEq, and_true]
  have he : ∀ i ∈ List.range r, (ys.flatten.drop (i*2*64)).take 64 = ys.getD (2*i) [] := by
    intro i hi
    have := flatten_slice 64 ys (i*2) hysm (by have := List.mem_range.mp hi; omega)
    rw [Nat.mul_comm i 2] at this
    rw [← this]
    ring_nf
  have ho : ∀ i ∈ List.range r, (ys.flatten.drop ((i*2+1)*64)).take 64 = ys.getD (2*i+1) [] := by
    intro i hi
    have := flatten_slice 64 ys (i*2+1) hysm (by have := List.mem_range.mp hi; omega)
    rw [show i*2+1 = 2*i+1 by ring] at this
    rw [← this]
    ring_nf
  rw [List.map_congr_left he, List.map_congr_left ho]

/-! ## SMix: fill and mix phase correspondence -/

theorem and_pow_two_sub_one (a k : Nat) : a &&& (2^k - 1) = a % 2^k := by
  apply Nat.eq_of_testBit_eq
  intro i
  simp [Nat.testBit_and, Nat.testBit_mod_two_pow, Nat.testBit_two_pow_sub_one, Bool.and_comm]

theorem getD_length_of_mem (bs : List (List Nat)) (L j : Nat)
    (hm : ∀ z ∈ bs, z.length = L) (hj : j < bs.length) : (bs.getD j []).length = L := by
  rw [List.getD_eq_getElem bs [] hj]
  exact hm _ (List.getElem_mem hj)

theorem specBlockMix_length (b : List Nat) (r : Nat) : (specBlockMix b r).length = 128*r := by
  rw [specBlockMix]
  have hysm := specBlockMixYs_mem (subBlockList b (2*r)) ((b.drop ((2*r-1)*64)).take 64)
  have hysl : (specBlockMixYs ((b.drop ((2*r-1)*64)).take 64) (subBlockList b (2*r))).length = 2*r := by
    rw [specBlockMixYs_length, subBlockList_length]
  have h1 : ∀ z ∈ (List.range r).map (fun i =>
      (specBlockMixYs ((b.drop ((2*r-1)*64)).take 64) (subBlockList b (2*r))).getD (2*i) []), z.length = 64 := by
    intro z hz
    obtain ⟨i, hi, rfl⟩ := List.mem_map.mp hz
    exact getD_length_of_mem _ _ _ hysm (by rw [hysl]; have := List.mem_range.mp hi; omega)
  have h2 : ∀ z ∈ (List.range r).map (fun i =>
      (specBlockMixYs ((b.drop ((2*r-1)*64)).take 64) (subBlockList b (2*r))).getD (2*i+1) []), z.length = 64 := by
    intro z hz
    obtain ⟨i, hi, rfl⟩ := List.mem_map.mp hz
    exact getD_length_of_mem _ _ _ hysm (by rw [hysl]; have := List.mem_range.mp hi; omega)
  rw [List.length_append, flatten_length_const 64 _ h1, flatten_length_const 64 _ h2,
    List.length_map, List.length_range, List.length_map, List.length_range]
  omega

theorem specSmixFillX_succ_back (r : Nat) :
    ∀ (n : Nat) (x : List Nat), specSmixFillX r (n+1) x = specBlockMix (specSmixFillX r n x) r := by
  intro n
  induction n with
  | zero => intro x; rfl
  | succ n ih => intro x; rw [specSmixFillX, ih, specSmixFillX]

theorem specSmixV_succ_back (r : Nat) :
    ∀ (n : Nat) (x : List Nat), specSmixV r (n+1) x = specSmixV r n x ++ [specSmixFillX r n x] := by
  intro n
  induction n with
  | zero => intro x; rfl
  | succ n ih => intro x; rw [specSmixV, ih, specSmixV, specSmixFillX, List.cons_append]

theorem specSmixFillX_length (r : Nat) :
    ∀ (n : Nat) (x : List Nat), x.length = 128*r → (specSmixFillX r n x).length = 128*r := by
  intro n
  induction n with
  | zero => intro x hx; exact hx
  | succ n ih => intro x hx; rw [specSmixFillX]; exact ih _ (specBlockMix_length _ _)

theorem specSmixV_length (r : Nat) :
    ∀ (n : Nat) (x : List Nat), (specSmixV r n x).length = n := by
  intro n
  induction n with
  | zero => intro x; rfl
  | succ n ih => intro x; rw [specSmixV, List.length_cons, ih]

theorem specSmixV_mem (r : Nat) :
    ∀ (n : Nat) (x : List Nat), x.length = 128*r → ∀ z ∈ specSmixV r n x, z.length = 128*r := by
  intro n
  induction n with
  | zero => intro x hx z hz; simp [specSmixV] at hz
  | succ n ih =>
    intro x hx z hz
    rw [specSmixV] at hz
    rcases List.mem_cons.mp hz with h | h
    · rw [h]; exact hx
    · exact ih _ (specBlockMix_length _ _) z h

theorem specSmixMixX_succ_back (vt : List (List Nat)) (r mask : Nat) :
    ∀ (n : Nat) (x : List Nat),
      specSmixMixX vt r mask (n+1) x
        = specBlockMix (xorBytes (specSmixMixX vt r mask n x)
            (vt.getD (leQword (specSmixMixX vt r mask n x) ((2*r-1)*64) &&& mask) [])) r := by
  intro n
  induction n with
  | zero => intro x; rfl
  | succ n ih => intro x; rw [specSmixMixX, ih, specSmixMixX]

theorem specSmixMixX_length (vt : List (List Nat)) (r mask : Nat) :
    ∀ (n : Nat) (x : List Nat), x.length = 128*r → (specSmixMixX vt r mask n x).length = 128*r := by
  intro n
  induction n with
  | zero => intro x hx; exact hx
  | succ n ih => intro x hx; rw [specSmixMixX]; exact ih _ (specBlockMix_length _ _)

/-- The fill loop of `smix` computes the specification's fill phase:
the scratch `x` follows the BlockMix chain and `v` receives the `N`
checkpoints contiguously. -/
theorem smixFillLoop_eq (r : Nat) (hr : 1 ≤ r) :
    ∀ (n : Nat) (x0 y0 v : List Nat), x0.length = 128*r → y0.length = 128*r →
      n*(128*r) ≤ v.length →
      ∃ yn, ((List.range n).foldl (fun s i =>
          ((scryptA.blockMix s.1 s.2.1 r).1, (scryptA.blockMix s.1 s.2.1 r).2,
           writeBytes s.2.2 (i*(128*r)) (s.1.take (128*r)))) (x0, y0, v))
        = (specSmixFillX r n x0, yn, (specSmixV r n x0).flatten ++ v.drop (n*(128*r)))
        ∧ yn.length = 128*r := by
  intro n
  induction n with
  | zero =>
    intro x0 y0 v hx hy hv
    exact ⟨y0, by simp [specSmixFillX, specSmixV], hy⟩
  | succ n ih =>
    intro x0 y0 v hx hy hv
    rw [Nat.succ_mul] at hv
    obtain ⟨yn, hfold, hyn⟩ := ih x0 y0 v hx hy (by omega)
    have hXn : (specSmixFillX r n x0).length = 128*r := specSmixFillX_length r n x0 hx
    have hVm : ∀ z ∈ specSmixV r n x0, z.length = 128*r := specSmixV_mem r n x0 hx
    have hVf : ((specSmixV r n x0).flatten).length = n*(128*r) := by
      rw [flatten_length_const (128*r) _ hVm, specSmixV_length]
    have hbm := blockMixA_parts (specSmixFillX r n x0) yn r hr hXn hyn
    refine ⟨(specBlockMixYs (((specSmixFillX r n x0).drop ((2*r-1)*64)).take 64)
        (subBlockList (specSmixFillX r n x0) (2*r))).flatten, ?_, ?_⟩
    · rw [List.range_succ, List.foldl_append, List.foldl_cons, List.foldl_nil, hfold]
      simp only [hbm]
      rw [show (specSmixFillX r n x0).take (128*r) = specSmixFillX r n x0 from by rw [← hXn, List.take_length]]
      rw [show (n*(128*r) : Nat) = (((specSmixV r n x0).flatten).length) from hVf.symm,
        writeBytes_exact, List.drop_drop, hXn,
        specSmixFillX_succ_back, specSmixV_succ_back, List.flatten_append]
      simp only [List.flatten_cons, List.flatten_nil, List.append_nil, hVf]
      rw [show (n*(128*r) + 128*r : Nat) = (n+1)*(128*r) by ring]
    · rw [flatten_length_const 64 _ (specBlockMixYs_mem _ _), specBlockMixYs_length,
        subBlockList_length]
      omega

/-- The mix loop of `smix` computes the specification's mix phase:
`j` is the masked Integerify of `x`, the `j`-th checkpoint is XORed in
and BlockMix applied. -/
theorem smixMixLoop_eq (r N : Nat) (hr : 1 ≤ r) (k : Nat) (hNk : N = 2^k)
    (vt : List (List Nat)) (hvtl : vt.length = N) (hvtm : ∀ z ∈ vt, z.length = 128*r) :
    ∀ (n : Nat) (x0 y0 : List Nat), x0.length = 128*r → y0.length = 128*r →
      ∃ yn, ((List.range n).foldl (fun t _ =>
          scryptA.blockMix (xorInto t.1
            (vt.flatten.drop ((scryptA.integerify t.1 r &&& (N-1))*(128*r))) (128*r)) t.2 r)
          (x0, y0))
        = (specSmixMixX vt r (N-1) n x0, yn)
        ∧ yn.length = 128*r := by
  intro n
  induction n with
  | zero =>
    intro x0 y0 hx hy
    exact ⟨y0, by simp [specSmixMixX], hy⟩
  | succ n ih =>
    intro x0 y0 hx hy
    obtain ⟨yn, hfold, hyn⟩ := ih x0 y0 hx hy
    have hXn : (specSmixMixX vt r (N-1) n x0).length = 128*r := specSmixMixX_length vt r (N-1) n x0 hx
    set j := scryptA.integerify (specSmixMixX vt r (N-1) n x0) r &&& (N-1) with hjdef
    have hj : j < N := by
      rw [hjdef, hNk]
      rw [and_pow_two_sub_one]
      exact Nat.mod_lt _ (Nat.two_pow_pos k)
    have hslice : (vt.flatten.drop (j*(128*r))).take (128*r) = vt.getD j [] :=
      flatten_slice (128*r) vt j hvtm (by omega)
    have hx2 : xorInto (specSmixMixX vt r (N-1) n x0) (vt.flatten.drop (j*(128*r))) (128*r)
        = xorBytes (specSmixMixX vt r (N-1) n x0) (vt.getD j []) := by
      rw [xorInto_eq_xorBytes _ _ _ hXn, hslice]
    have hx2len : (xorBytes (specSmixMixX vt r (N-1) n x0) (vt.getD j [])).length = 128*r := by
      rw [xorBytes_length, hXn, getD_length_of_mem vt (128*r) j hvtm (by omega), Nat.min_self]
    have hbm := blockMixA_parts (xorBytes (specSmixMixX vt r (N-1) n x0) (vt.getD j [])) yn r hr hx2len hyn
    have hjdef2 : j = leQword (specSmixMixX vt r (N-1) n x0) ((2*r-1)*64) &&& (N-1) := hjdef
    refine ⟨(specBlockMixYs (((xorBytes (specSmixMixX vt r (N-1) n x0) (vt.getD j [])).drop ((2*r-1)*64)).take 64)
        (subBlockList (xorBytes (specSmixMixX vt r (N-1) n x0) (vt.getD j [])) (2*r))).flatten, ?_, ?_⟩
    · simp only [List.range_succ, List.foldl_append, List.foldl_cons, List.foldl_nil, hfold]
      rw [← hjdef, hx2, hbm, specSmixMixX_succ_back, ← hjdef2]
    · rw [flatten_length_const 64 _ (specBlockMixYs_mem _ _), specBlockMixYs_length,
        subBlockList_length]
      omega

/-- `smix` of `scrypt.go` computes the specification's SMix in its
first (block) component, leaves the `N` checkpoints flattened in `v`,
and returns a `256r`-byte scratch `xy`. -/
theorem smixA_full (b v xy : List Nat) (r N : Nat) (hr : 1 ≤ r) (k : Nat) (hNk : N = 2^k)
    (hb : b.length = 128*r) (hv : v.length = 128*r*N) (hxy : xy.length = 256*r) :
    ∃ xyf, scryptA.smix b r N v xy
      = (specSmix b r N, (specSmixV r N b).flatten, xyf) ∧ xyf.length = 256*r := by
  have hx0 : writeBytes (xy.take (128*r)) 0 (b.take (128*r)) = b := by
    unfold writeBytes
    rw [show b.take (128*r) = b from by rw [← hb, List.take_length], List.take_zero,
      List.nil_append, Nat.zero_add, hb,
      List.drop_eq_nil_of_le (show (xy.take (128*r)).length ≤ 128*r from by rw [List.length_take]; omega),
      List.append_nil]
  have hy0 : (xy.drop (128*r)).length = 128*r := by rw [List.length_drop]; omega
  obtain ⟨yN, hfill, hyN⟩ := smixFillLoop_eq r hr N b (xy.drop (128*r)) v hb hy0
      (by rw [hv]; exact le_of_eq (by ring))
  rw [List.drop_eq_nil_of_le (show v.length ≤ N*(128*r) from by rw [hv]; exact le_of_eq (by ring)),
    List.append_nil] at hfill
  have hVm : ∀ z ∈ specSmixV r N b, z.length = 128*r := specSmixV_mem r N b hb
  have hVl : (specSmixV r N b).length = N := specSmixV_length r N b
  have hXN : (specSmixFillX r N b).length = 128*r := specSmixFillX_length r N b hb
  obtain ⟨yM, hmix, hyM⟩ := smixMixLoop_eq r N hr k hNk (specSmixV r N b) hVl hVm N
      (specSmixFillX r N b) yN hXN hyN
  have hXfin : (specSmixMixX (specSmixV r N b) r (N-1) N (specSmixFillX r N b)).length = 128*r :=
    specSmixMixX_length _ _ _ _ _ hXN
  refine ⟨specSmixMixX (specSmixV r N b) r (N-1) N (specSmixFillX r N b) ++ yM, ?_, ?_⟩
  · simp only [scryptA.smix, hx0, hfill, hmix]
    rw [show (specSmixMixX (specSmixV r N b) r (N-1) N (specSmixFillX r N b)).take (128*r)
        = specSmixMixX (specSmixV r N b) r (N-1) N (specSmixFillX r N b) from by
      rw [← hXfin, List.take_length]]
    unfold writeBytes
    rw [List.take_zero, List.nil_append, Nat.zero_add, hXfin, ← hb, List.drop_length,
      List.append_nil, specSmix]
  · rw [List.length_append, hXfin, hyM]
    omega

/-! ## Variant equalities and validator lemmas -/

theorem integerifyB_eq (b : List Nat) (r : Nat) :
    scryptB.integerify b r = scryptA.integerify b r := rfl

theorem integerifyC_eq (b : List Nat) (r : Nat) :
    scryptC.integerify b r = scryptA.integerify b r := rfl

theorem blockMixB_eq (b y : List Nat) (r : Nat) :
    scryptB.blockMix b y r = scryptA.blockMix b y r := by
  simp only [scryptB.blockMix, scryptA.blockMix, salsaB_eq_salsaA]

theorem blockMixC_eq (b y : List Nat) (r : Nat) :
    scryptC.blockMix b y r = scryptA.blockMix b y r := by
  simp only [scryptC.blockMix, scryptA.blockMix, salsaC_eq_salsaA]

theorem smixB_eq (b : List Nat) (r N : Nat) (v xy : List Nat) :
    scryptB.smix b r N v xy = scryptA.smix b r N v xy := by
  simp only [scryptB.smix, scryptA.smix, blockMixB_eq, integerifyB_eq]

theorem smixC_eq (b : List Nat) (r N : Nat) (v xy : List Nat) :
    scryptC.smix b r N v xy = scryptA.smix b r N v xy := by
  simp only [scryptC.smix, scryptA.smix, blockMixC_eq, integerifyC_eq]

theorem KeyB_eq (pb : PB) (pw salt : List Nat) (N r p kl : Int) :
    scryptB.Key pb pw salt N r p kl = scryptA.Key pb pw salt N r p kl := by
  simp only [scryptB.Key, scryptA.Key, smixB_eq]

theorem KeyC_eq (pb : PB) (pw salt : List Nat) (N r p kl : Int) (hN1 : N ≠ 1) :
    scryptC.Key pb pw salt N r p kl = scryptA.Key pb pw salt N r p kl := by
  have hiff : (N ≤ 0) = (N ≤ 1) := by
    apply propext
    constructor <;> intro h <;> omega
  simp only [scryptC.Key, scryptA.Key, smixC_eq, hiff]

theorem nCheck_pass (N : Int) (k : Nat) (hk : 1 ≤ k) (hN : N = 2^k) :
    ¬(N ≤ 1 ∨ (N.toNat &&& (N.toNat - 1)) ≠ 0) := by
  have h2 : (2:Int) ≤ 2^k := by
    calc (2:Int) = 2^1 := by norm_num
    _ ≤ 2^k := pow_le_pow_right₀ (by norm_num) hk
  have htn : N.toNat = 2^k := by
    rw [hN, show ((2:Int)^k) = ((2^k : Nat) : Int) by push_cast; ring]
    exact Int.toNat_natCast _
  push_neg
  constructor
  · omega
  · rw [htn, and_pow_two_sub_one, Nat.mod_self]

theorem sizeCheck_pass (N r p : Int) (hr : 1 ≤ r) (hp : 1 ≤ p)
    (h1 : (u64 r * u64 p) % 18446744073709551616 < 1073741824)
    (h2 : r ≤ Int.tdiv (Int.tdiv maxInt 128) p)
    (h3 : r ≤ Int.tdiv maxInt 256)
    (h4 : N ≤ Int.tdiv (Int.tdiv maxInt 128) r) :
    sizeCheck N r p = some false := by
  unfold sizeCheck
  rw [if_neg (by omega), if_neg (by omega), if_neg (by omega), if_neg (by omega),
    if_neg (by omega), if_neg (by omega)]

theorem sizeCheck_reject (N r p : Int) (hr0 : r ≠ 0) (hp0 : p ≠ 0)
    (hviol : (u64 r * u64 p) % 18446744073709551616 ≥ 1073741824
      ∨ r > Int.tdiv (Int.tdiv maxInt 128) p ∨ r > Int.tdiv maxInt 256
      ∨ N > Int.tdiv (Int.tdiv maxInt 128) r) :
    sizeCheck N r p = some true := by
  rcases hviol with h | h | h | h <;>
    · unfold sizeCheck
      split_ifs <;> first | rfl | omega

theorem sizeCheck_neg (N r p : Int) (hN2 : 2 ≤ N)
    (h : (r < 0 ∧ 1 ≤ p) ∨ (p < 0 ∧ 1 ≤ r)) :
    sizeCheck N r p = some true := by
  rcases h with ⟨ha, hb⟩ | ⟨ha, hb⟩ <;>
    · unfold sizeCheck
      split_ifs <;>
        first
          | rfl
          | omega
          | (exfalso
             have hx := Int.tdiv_nonpos
               (show (0:Int) ≤ Int.tdiv maxInt 128 by decide) (show r ≤ 0 by omega)
             omega)
          | (exfalso
             have hx := Int.tdiv_nonpos
               (show (0:Int) ≤ Int.tdiv maxInt 128 by decide) (show p ≤ 0 by omega)
             omega)

theorem sizeCheck_panic (N r p : Int) (h : p = 0 ∨ (r = 0 ∧ 1 ≤ p)) :
    sizeCheck N r p = none := by
  rcases h with hp | ⟨hr, hp⟩
  · subst hp
    unfold sizeCheck
    rw [if_neg (by simp [u64]), if_pos rfl]
  · subst hr
    unfold sizeCheck
    rw [if_neg (by simp [u64]), if_neg (by omega),
      if_neg (show ¬((0:Int) > Int.tdiv (Int.tdiv maxInt 128) p) from by
        have hx := Int.tdiv_nonneg (show (0:Int) ≤ Int.tdiv maxInt 128 by decide) (show (0:Int) ≤ p by omega)
        omega),
      if_neg (show ¬((0:Int) > Int.tdiv maxInt 256) from by decide), if_pos rfl]

/-! ## Key: orchestration correspondence -/

theorem specSmix_length (b : List Nat) (r N : Nat) (hb : b.length = 128*r) :
    (specSmix b r N).length = 128*r := by
  rw [specSmix]
  exact specSmixMixX_length _ _ _ _ _ (specSmixFillX_length _ _ _ hb)

/-- The `p`-pass loop of `Key`: writing each SMixed slice back in place
produces the concatenation of the independently SMixed slices of the
initial buffer, and the scratch buffers keep their sizes. -/
theorem keyLoop_eq (rn Nn : Nat) (hr : 1 ≤ rn) (k : Nat) (hNk : Nn = 2^k)
    (b0 : List Nat) (pn : Nat) (hlen : b0.length = pn * (128 * rn)) :
    ∀ n, n ≤ pn → ∀ (v xy : List Nat), v.length = 128*rn*Nn → xy.length = 256*rn →
    ∃ vn xyn, ((List.range n).foldl (fun st i =>
        (writeBytes st.1 (i*(128*rn))
          (scryptA.smix ((st.1.drop (i*(128*rn))).take (128*rn)) rn Nn st.2.1 st.2.2).1,
         (scryptA.smix ((st.1.drop (i*(128*rn))).take (128*rn)) rn Nn st.2.1 st.2.2).2.1,
         (scryptA.smix ((st.1.drop (i*(128*rn))).take (128*rn)) rn Nn st.2.1 st.2.2).2.2)) (b0, v, xy))
      = (((List.range n).map (fun i => specSmix ((b0.drop (i*(128*rn))).take (128*rn)) rn Nn)).flatten
          ++ b0.drop (n*(128*rn)), vn, xyn)
      ∧ vn.length = 128*rn*Nn ∧ xyn.length = 256*rn := by
  intro n
  induction n with
  | zero =>
    intro _ v xy hv hxy
    exact ⟨v, xy, by simp, hv, hxy⟩
  | succ n ih =>
    intro hn v xy hv hxy
    obtain ⟨vn, xyn, hfold, hvn, hxyn⟩ := ih (by omega) v xy hv hxy
    have hsl : ∀ i, i < pn → i*(128*rn) + 128*rn ≤ pn*(128*rn) := by
      intro i hi
      have := Nat.mul_le_mul_right (128*rn) (show i+1 ≤ pn by omega)
      rw [Nat.succ_mul] at this
      omega
    have hslice : ∀ i, i < pn → ((b0.drop (i*(128*rn))).take (128*rn)).length = 128*rn := by
      intro i hi
      rw [List.length_take, List.length_drop, hlen]
      have := hsl i hi
      omega
    have hmem : ∀ z ∈ (List.range n).map
        (fun i => specSmix ((b0.drop (i*(128*rn))).take (128*rn)) rn Nn), z.length = 128*rn := by
      intro z hz
      obtain ⟨i, hi, rfl⟩ := List.mem_map.mp hz
      exact specSmix_length _ _ _ (hslice i (by have := List.mem_range.mp hi; omega))
    have hF : (((List.range n).map
        (fun i => specSmix ((b0.drop (i*(128*rn))).take (128*rn)) rn Nn)).flatten).length
        = n*(128*rn) := by
      rw [flatten_length_const (128*rn) _ hmem, List.length_map, List.length_range]
    have hdropslice : (((((List.range n).map
          (fun i => specSmix ((b0.drop (i*(128*rn))).take (128*rn)) rn Nn)).flatten)
          ++ b0.drop (n*(128*rn))).drop (n*(128*rn))).take (128*rn)
        = (b0.drop (n*(128*rn))).take (128*rn) := by
      rw [List.drop_append_eq_append_drop, List.drop_eq_nil_of_le (le_of_eq hF),
        List.nil_append, hF, Nat.sub_self, List.drop_zero]
    obtain ⟨xyf, hsmix, hxyf⟩ := smixA_full ((b0.drop (n*(128*rn))).take (128*rn)) vn xyn rn Nn hr k hNk
      (hslice n (by omega)) hvn hxyn
    have hsm_len : (specSmix ((b0.drop (n*(128*rn))).take (128*rn)) rn Nn).length = 128*rn :=
      specSmix_length _ _ _ (hslice n (by omega))
    have hVfl : ((specSmixV rn Nn ((b0.drop (n*(128*rn))).take (128*rn))).flatten).length
        = 128*rn*Nn := by
      rw [flatten_length_const (128*rn) _ (specSmixV_mem _ _ _ (hslice n (by omega))),
        specSmixV_length, Nat.mul_comm]
    refine ⟨(specSmixV rn Nn ((b0.drop (n*(128*rn))).take (128*rn))).flatten, xyf, ?_, hVfl, hxyf⟩
    simp only [List.range_succ, List.foldl_append, List.foldl_cons, List.foldl_nil, hfold,
      hdropslice, hsmix]
    rw [writeBytes_at _ _ _ _ hF.symm, List.drop_drop, hsm_len, List.map_append, List.flatten_append]
    simp only [List.map_cons, List.map_nil, List.flatten_cons, List.flatten_nil, List.append_nil]
    rw [show (n*(128*rn) + 128*rn : Nat) = (n+1)*(128*rn) by ring]

theorem KeyA_ok_shape (pb : PB) (pw salt : List Nat) (N r p keyLen : Int)
    (k : Nat) (hk : 1 ≤ k) (hN : N = 2^k) (hr : 1 ≤ r) (hp : 1 ≤ p)
    (h1 : (u64 r * u64 p) % 18446744073709551616 < 1073741824)
    (h2 : r ≤ Int.tdiv (Int.tdiv maxInt 128) p)
    (h3 : r ≤ Int.tdiv maxInt 256)
    (h4 : N ≤ Int.tdiv (Int.tdiv maxInt 128) r) :
    ∃ B, scryptA.Key pb pw salt N r p keyLen = GoResult.ok (pb pw B 1 keyLen) := by
  unfold scryptA.Key
  rw [if_neg (nCheck_pass N k hk hN), sizeCheck_pass N r p hr hp h1 h2 h3 h4]
  exact ⟨_, rfl⟩

theorem KeyA_spec_lemma (pb : PB) (pw salt : List Nat) (N r p keyLen : Int)
    (k : Nat) (hk : 1 ≤ k) (hN : N = 2^k) (hr : 1 ≤ r) (hp : 1 ≤ p)
    (h1 : (u64 r * u64 p) % 18446744073709551616 < 1073741824)
    (h2 : r ≤ Int.tdiv (Int.tdiv maxInt 128) p)
    (h3 : r ≤ Int.tdiv maxInt 256)
    (h4 : N ≤ Int.tdiv (Int.tdiv maxInt 128) r)
    (hlen : (pb pw salt 1 (p*128*r)).length = p.toNat * (128 * r.toNat)) :
    scryptA.Key pb pw salt N r p keyLen = GoResult.ok (specKey pb pw salt N r p keyLen) := by
  have hrn : 1 ≤ r.toNat := by omega
  have hNn : N.toNat = 2^k := by
    rw [hN, show ((2:Int)^k) = ((2^k : Nat) : Int) by push_cast; ring]
    exact Int.toNat_natCast _
  have hshape : scryptA.Key pb pw salt N r p keyLen
      = GoResult.ok (pb pw
          (((List.range p.toNat).foldl (fun st i =>
              (writeBytes st.1 (i*(128*r.toNat))
                (scryptA.smix ((st.1.drop (i*(128*r.toNat))).take (128*r.toNat)) r.toNat N.toNat st.2.1 st.2.2).1,
               (scryptA.smix ((st.1.drop (i*(128*r.toNat))).take (128*r.toNat)) r.toNat N.toNat st.2.1 st.2.2).2.1,
               (scryptA.smix ((st.1.drop (i*(128*r.toNat))).take (128*r.toNat)) r.toNat N.toNat st.2.1 st.2.2).2.2))
            (pb pw salt 1 (p*128*r), List.replicate (128*r.toNat*N.toNat) 0,
             List.replicate (256*r.toNat) 0)).1)
          1 keyLen) := by
    unfold scryptA.Key
    rw [if_neg (nCheck_pass N k hk hN), sizeCheck_pass N r p hr hp h1 h2 h3 h4]
  obtain ⟨vn, xyn, hfold, hvn, hxyn⟩ := keyLoop_eq r.toNat N.toNat hrn k hNn
    (pb pw salt 1 (p*128*r)) p.toNat hlen p.toNat (le_refl _)
    (List.replicate (128*r.toNat*N.toNat) 0) (List.replicate (256*r.toNat) 0)
    (by simp) (by simp)
  rw [hshape]
  simp only [hfold]
  rw [List.drop_eq_nil_of_le (le_of_eq hlen), List.append_nil]
  simp only [specKey]

/-! ## Claim theorems -/

/-- C1: for every mix block `b` of length `128r` (`r ≥ 1`), every
`N ≥ 2` that is a power of two, and scratch buffers `v` (length
`128rN`) and `xy` (length `256r`), `smix` replaces `b` with the result
of: copying `b` into `X`; a fill phase storing `X` into `V[i]` then
applying BlockMix, for `i = 0 … N−1`; a mix phase taking
`j = Integerify(X) AND (N−1)` (little-endian 64-bit decoding of the
first eight bytes of `X`'s last 64-byte sub-block), XORing `V[j]` into
`X` and applying BlockMix, for `i = 0 … N−1`; and copying `X` back. -/
theorem claim_C1_smix_correct (b v xy : List Nat) (r N : Nat) (hr : 1 ≤ r)
    (k : Nat) (hk : 1 ≤ k) (hN : N = 2^k)
    (hb : b.length = 128*r) (hv : v.length = 128*r*N) (hxy : xy.length = 256*r) :
    (scryptA.smix b r N v xy).1 = specSmix b r N := by
  obtain ⟨xyf, heq, _⟩ := smixA_full b v xy r N hr k hN hb hv hxy
  rw [heq]

theorem claim_C1_witness :
    (scryptA.smix (List.replicate 128 0) 1 2 (List.replicate 256 0) (List.replicate 256 0)).1
      = specSmix (List.replicate 128 0) 1 2 :=
  claim_C1_smix_correct (List.replicate 128 0) (List.replicate 256 0) (List.replicate 256 0)
    1 2 (by norm_num) 1 (by norm_num) (by norm_num) (by rw [List.length_replicate])
    (by rw [List.length_replicate]) (by rw [List.length_replicate])

/-- C2: for every `r ≥ 1` and buffer `b` of length `128r` with scratch
`y` of the same length, `blockMix` (in `scrypt.go` and in the first
variant of the second file) replaces `b` with BlockMix(b): seed `X`
with the last 64-byte sub-block, chain `X ← Salsa20/8(X XOR B_i)`
storing each `X` as sub-block `i` of `Y`, then write the even-indexed
sub-blocks of `Y` first and the odd-indexed ones second. -/
theorem claim_C2_blockMix_correct (b y : List Nat) (r : Nat) (hr : 1 ≤ r)
    (hb : b.length = 128*r) (hy : y.length = 128*r) :
    (scryptA.blockMix b y r).1 = specBlockMix b r
    ∧ (scryptB.blockMix b y r).1 = specBlockMix b r := by
  have h := blockMixA_parts b y r hr hb hy
  exact ⟨by rw [h], by rw [blockMixB_eq, h]⟩

theorem claim_C2_witness :
    (scryptA.blockMix (List.replicate 128 0) (List.replicate 128 0) 1).1
      = specBlockMix (List.replicate 128 0) 1
    ∧ (scryptB.blockMix (List.replicate 128 0) (List.replicate 128 0) 1).1
      = specBlockMix (List.replicate 128 0) 1 :=
  claim_C2_blockMix_correct (List.replicate 128 0) (List.replicate 128 0) 1
    (by norm_num) (by rw [List.length_replicate]) (by rw [List.length_replicate])

/-- C3: for every 64-byte buffer `b`, `salsa` (the array-based version
of `scrypt.go` and the `rot`-helper version of the second file)
replaces `b` with Salsa20/8(b): decode sixteen little-endian 32-bit
words, perform exactly 4 double-rounds (column step then row step of
the standard quarter-round schedule, rotations 7, 9, 13, 18, additions
mod `2^32`), add the saved input back, and re-encode little-endian. -/
theorem claim_C3_salsa_correct (b : List Nat) (hb : b.length = 64) :
    scryptA.salsa b = salsaSpec b ∧ scryptC.salsa b = salsaSpec b :=
  ⟨salsaA_eq_salsaSpec b, by rw [salsaC_eq_salsaA]; exact salsaA_eq_salsaSpec b⟩

theorem claim_C3_witness :
    scryptA.salsa (List.replicate 64 0) = salsaSpec (List.replicate 64 0)
    ∧ scryptC.salsa (List.replicate 64 0) = salsaSpec (List.replicate 64 0) :=
  claim_C3_salsa_correct (List.replicate 64 0) (by rw [List.length_replicate])

/-- C4: the claim says every variant rejects every `N ≤ 1` with the
`InvalidParams` error.  Variants A and B do reject `N = 1`, but variant
C's first check reads `N <= 0`, so `N = 1` passes validation and a key
is computed — contradicting the variant's own documentation ("must be
a power of two greater than 1") and its own error message. -/
theorem claim_C4_variantC_accepts_N1 :
    scryptA.Key pbZero [] [] 1 1 1 32 = GoResult.err "scrypt: N must be > 1 and a power of 2"
    ∧ scryptB.Key pbZero [] [] 1 1 1 32 = GoResult.err "scrypt: N must be > 1 and a power of 2"
    ∧ ∃ key, scryptC.Key pbZero [] [] 1 1 1 32 = GoResult.ok key :=
  ⟨rfl, rfl, ⟨_, rfl⟩⟩

/-- C5: with `N ≥ 2` a power of two and `r, p ≥ 1`: if the wrapped
uint64 product `r·p` is `≥ 2^30`, or `r > maxInt/128/p`, or
`r > maxInt/256`, or `N > maxInt/128/r` (Go truncated division,
`maxInt = 2^31 − 1`), `Key` returns the "parameters are too large"
`InvalidParams` error without computing anything; and if none of these
holds, the products `256·r`, `128·r·N` and `p·128·r` each fit in a
signed 32-bit integer. -/
theorem claim_C5_size_validator (pb : PB) (pw salt : List Nat) (N r p keyLen : Int)
    (k : Nat) (hk : 1 ≤ k) (hN : N = 2^k) (hr : 1 ≤ r) (hp : 1 ≤ p) :
    ( ((u64 r * u64 p) % 18446744073709551616 ≥ 1073741824
        ∨ r > Int.tdiv (Int.tdiv maxInt 128) p ∨ r > Int.tdiv maxInt 256
        ∨ N > Int.tdiv (Int.tdiv maxInt 128) r)
      → scryptA.Key pb pw salt N r p keyLen = GoResult.err "scrypt: parameters are too large" )
    ∧ ( ((u64 r * u64 p) % 18446744073709551616 < 1073741824
        ∧ r ≤ Int.tdiv (Int.tdiv maxInt 128) p ∧ r ≤ Int.tdiv maxInt 256
        ∧ N ≤ Int.tdiv (Int.tdiv maxInt 128) r)
      → 256*r ≤ maxInt ∧ 128*r*N ≤ maxInt ∧ p*128*r ≤ maxInt ) := by
  constructor
  · intro hviol
    unfold scryptA.Key
    rw [if_neg (nCheck_pass N k hk hN), sizeCheck_reject N r p (by omega) (by omega) hviol]
  · rintro ⟨h1, h2, h3, h4⟩
    obtain ⟨rn, hrn⟩ := Int.eq_ofNat_of_zero_le (show (0:Int) ≤ r by omega)
    obtain ⟨pn, hpn⟩ := Int.eq_ofNat_of_zero_le (show (0:Int) ≤ p by omega)
    have hN0 : (0:Int) ≤ N := by
      have : (0:Int) < 2^k := by positivity
      omega
    obtain ⟨Nn, hNn⟩ := Int.eq_ofNat_of_zero_le hN0
    subst hrn hpn hNn
    rw [show Int.tdiv maxInt 256 = (8388607 : Int) from by decide] at h3
    rw [show Int.tdiv maxInt 128 = (16777215 : Int) from by decide] at h2 h4
    rw [show Int.tdiv (16777215 : Int) ((pn : Nat) : Int) = ((16777215 / pn : Nat) : Int) from rfl] at h2
    rw [show Int.tdiv (16777215 : Int) ((rn : Nat) : Int) = ((16777215 / rn : Nat) : Int) from rfl] at h4
    have hrn1 : 1 ≤ rn := by omega
    have hpn1 : 1 ≤ pn := by omega
    have hh2 : rn ≤ 16777215 / pn := by exact_mod_cast h2
    have hh3 : rn ≤ 8388607 := by exact_mod_cast h3
    have hh4 : Nn ≤ 16777215 / rn := by exact_mod_cast h4
    have hm2 : rn * pn ≤ 16777215 := (Nat.le_div_iff_mul_le (by omega)).mp hh2
    have hm4 : Nn * rn ≤ 16777215 := (Nat.le_div_iff_mul_le (by omega)).mp hh4
    have hmax : maxInt = (2147483647 : Int) := rfl
    refine ⟨?_, ?_, ?_⟩
    · rw [hmax]
      omega
    · have hnat : 128*rn*Nn ≤ 2147483647 := by
        calc 128*rn*Nn = 128*(Nn*rn) := by ring
        _ ≤ 128*16777215 := Nat.mul_le_mul (le_refl 128) hm4
        _ ≤ 2147483647 := by norm_num
      rw [hmax]
      exact_mod_cast hnat
    · have hnat : pn*128*rn ≤ 2147483647 := by
        calc pn*128*rn = 128*(rn*pn) := by ring
        _ ≤ 128*16777215 := Nat.mul_le_mul (le_refl 128) hm2
        _ ≤ 2147483647 := by norm_num
      rw [hmax]
      exact_mod_cast hnat

theorem claim_C5_witness :
    scryptA.Key pbZero [] [] 2 1073741824 1 32 = GoResult.err "scrypt: parameters are too large" :=
  (claim_C5_size_validator pbZero [] [] 2 1073741824 1 32 1 (by norm_num) (by norm_num)
    (by norm_num) (by norm_num)).1 (Or.inl (by decide))

/-- C6: for parameters the validator accepts, `Key` returns exactly the
composition `pbkdf2(password, B', 1, keyLen)` where
`B' = SMix(B_0) ‖ … ‖ SMix(B_{p−1})` are the independently SMixed
`128r`-byte slices of `B = pbkdf2(password, salt, 1, p·128·r)`,
with the scratch buffers `v` and `xy` reused across the `p` passes. -/
theorem claim_C6_key_composition (pb : PB) (pw salt : List Nat) (N r p keyLen : Int)
    (k : Nat) (hk : 1 ≤ k) (hN : N = 2^k) (hr : 1 ≤ r) (hp : 1 ≤ p)
    (h1 : (u64 r * u64 p) % 18446744073709551616 < 1073741824)
    (h2 : r ≤ Int.tdiv (Int.tdiv maxInt 128) p)
    (h3 : r ≤ Int.tdiv maxInt 256)
    (h4 : N ≤ Int.tdiv (Int.tdiv maxInt 128) r)
    (hlen : (pb pw salt 1 (p*128*r)).length = p.toNat * (128 * r.toNat)) :
    scryptA.Key pb pw salt N r p keyLen = GoResult.ok (specKey pb pw salt N r p keyLen) :=
  KeyA_spec_lemma pb pw salt N r p keyLen k hk hN hr hp h1 h2 h3 h4 hlen

theorem claim_C6_witness :
    scryptA.Key pbZero [] [] 2 1 1 3 = GoResult.ok (specKey pbZero [] [] 2 1 1 3) :=
  claim_C6_key_composition pbZero [] [] 2 1 1 3 1 (by norm_num) (by norm_num) (by norm_num)
    (by norm_num) (by decide) (by decide) (by decide) (by decide)
    (by rw [show pbZero [] [] 1 (1*128*1) = List.replicate 128 0 from rfl, List.length_replicate]
        decide)

/-- C7: for every valid parameter tuple (`N` a power of two `≥ 2`,
`r, p ≥ 1` within the §4.E bounds, `keyLen ≥ 0`) and arbitrary
password and salt (including empty), `Key` succeeds and returns a byte
sequence of length exactly `keyLen`, assuming the external PBKDF2
primitive honours its output-length contract. -/
theorem claim_C7_key_length (pb : PB) (pw salt : List Nat) (N r p keyLen : Int)
    (hpb : ∀ pw2 s2 it dk, 0 ≤ dk → (pb pw2 s2 it dk).length = dk.toNat)
    (k : Nat) (hk : 1 ≤ k) (hN : N = 2^k) (hr : 1 ≤ r) (hp : 1 ≤ p) (hkl : 0 ≤ keyLen)
    (h1 : (u64 r * u64 p) % 18446744073709551616 < 1073741824)
    (h2 : r ≤ Int.tdiv (Int.tdiv maxInt 128) p)
    (h3 : r ≤ Int.tdiv maxInt 256)
    (h4 : N ≤ Int.tdiv (Int.tdiv maxInt 128) r) :
    ∃ key, scryptA.Key pb pw salt N r p keyLen = GoResult.ok key
      ∧ key.length = keyLen.toNat := by
  obtain ⟨B, hB⟩ := KeyA_ok_shape pb pw salt N r p keyLen k hk hN hr hp h1 h2 h3 h4
  exact ⟨_, hB, hpb _ _ _ _ hkl⟩

theorem claim_C7_witness :
    ∃ key, scryptA.Key pbZero [] [] 2 1 1 32 = GoResult.ok key ∧ key.length = (32:Int).toNat :=
  claim_C7_key_length pbZero [] [] 2 1 1 32
    (by intro pw2 s2 it dk hdk; rw [show pbZero pw2 s2 it dk = List.replicate dk.toNat 0 from rfl, List.length_replicate])
    1 (by norm_num) (by norm_num) (by norm_num) (by norm_num) (by norm_num)
    (by decide) (by decide) (by decide) (by decide)

/-- C8 counterexample: the claim asserts that `r ≤ 0`, `p ≤ 0` or
`keyLen < 0` are rejected with an `InvalidParams` error and that the
validation expression is total at `r = 0` and `p = 0`.  In fact at
`r = 0` (valid `N`, `p = 1`) the expression `maxInt/128/r` divides by
zero — a Go run-time panic, not an error return — and a negative
`keyLen` is not examined by the validator at all (the call succeeds). -/
theorem claim_C8_counterexample :
    scryptA.Key pbZero [] [] 2 0 1 32 = GoResult.panic
    ∧ ∃ key, scryptA.Key pbZero [] [] 2 1 1 (-5) = GoResult.ok key :=
  ⟨rfl, ⟨_, rfl⟩⟩

/-- C8 (amended): with `N ≥ 2` a power of two, a call with `p = 0` (any
`r`), or with `r = 0` and `p ≥ 1`, makes the validation expression
divide by zero — a run-time panic, so neither a key nor an error value
is produced; a call with `r < 0, p ≥ 1` or `p < 0, r ≥ 1` is rejected
with the "parameters are too large" `InvalidParams` error.  `keyLen`
is not examined by the validator. -/
theorem claim_C8_amended (pb : PB) (pw salt : List Nat) (N r p keyLen : Int)
    (k : Nat) (hk : 1 ≤ k) (hN : N = 2^k) :
    ((p = 0 ∨ (r = 0 ∧ 1 ≤ p)) → scryptA.Key pb pw salt N r p keyLen = GoResult.panic)
    ∧ (((r < 0 ∧ 1 ≤ p) ∨ (p < 0 ∧ 1 ≤ r))
      → scryptA.Key pb pw salt N r p keyLen = GoResult.err "scrypt: parameters are too large") := by
  have hN2 : (2:Int) ≤ N := by
    have : (2:Int) = 2^1 := by norm_num
    have h2 : (2:Int)^1 ≤ 2^k := pow_le_pow_right₀ (by norm_num) hk
    omega
  constructor
  · intro h
    unfold scryptA.Key
    rw [if_neg (nCheck_pass N k hk hN), sizeCheck_panic N r p h]
  · intro h
    unfold scryptA.Key
    rw [if_neg (nCheck_pass N k hk hN), sizeCheck_neg N r p hN2 h]

theorem claim_C8_witness :
    scryptA.Key pbZero [] [] 2 (-1) 1 32 = GoResult.err "scrypt: parameters are too large" :=
  (claim_C8_amended pbZero [] [] 2 (-1) 1 32 1 (by norm_num) (by norm_num)).2
    (Or.inl ⟨by norm_num, by norm_num⟩)

/-- C9: on every input accepted by the validator (`N = 2^k ≥ 2`,
`r, p ≥ 1`, `keyLen ≥ 0`, §4.E bounds), the three style variants of
`Key` — the one in `scrypt.go`, the unrolled-salsa variant and the
`rot`-helper variant — return identical results. -/
theorem claim_C9_variants_equal (pb : PB) (pw salt : List Nat) (N r p keyLen : Int)
    (k : Nat) (hk : 1 ≤ k) (hN : N = 2^k) (hr : 1 ≤ r) (hp : 1 ≤ p) (hkl : 0 ≤ keyLen)
    (h1 : (u64 r * u64 p) % 18446744073709551616 < 1073741824)
    (h2 : r ≤ Int.tdiv (Int.tdiv maxInt 128) p)
    (h3 : r ≤ Int.tdiv maxInt 256)
    (h4 : N ≤ Int.tdiv (Int.tdiv maxInt 128) r) :
    scryptA.Key pb pw salt N r p keyLen = scryptB.Key pb pw salt N r p keyLen
    ∧ scryptB.Key pb pw salt N r p keyLen = scryptC.Key pb pw salt N r p keyLen := by
  have hN1 : N ≠ 1 := by
    have h2k : (2:Int)^1 ≤ 2^k := pow_le_pow_right₀ (by norm_num) hk
    have : (2:Int)^1 = 2 := by norm_num
    omega
  exact ⟨(KeyB_eq pb pw salt N r p keyLen).symm,
    by rw [KeyB_eq, KeyC_eq pb pw salt N r p keyLen hN1]⟩

theorem claim_C9_witness :
    scryptA.Key pbZero [] [] 2 1 1 32 = scryptB.Key pbZero [] [] 2 1 1 32
    ∧ scryptB.Key pbZero [] [] 2 1 1 32 = scryptC.Key pbZero [] [] 2 1 1 32 :=
  claim_C9_variants_equal pbZero [] [] 2 1 1 32 1 (by norm_num) (by norm_num) (by norm_num)
    (by norm_num) (by norm_num) (by decide) (by decide) (by decide) (by decide)

/-- C10: `Key` is deterministic — two calls with pairwise identical
password, salt, `N`, `r`, `p` and `keyLen`, backed by the same
PBKDF2-HMAC-SHA256 function, return identical results. -/
theorem claim_C10_deterministic (pb : PB) (pw1 pw2 s1 s2 : List Nat)
    (N1 N2 r1 r2 p1 p2 kl1 kl2 : Int)
    (hpw : pw1 = pw2) (hs : s1 = s2) (hN : N1 = N2) (hr : r1 = r2)
    (hp : p1 = p2) (hkl : kl1 = kl2) :
    scryptA.Key pb pw1 s1 N1 r1 p1 kl1 = scryptA.Key pb pw2 s2 N2 r2 p2 kl2 := by
  subst hpw hs hN hr hp hkl
  rfl

theorem claim_C10_witness :
    scryptA.Key pbZero [] [] 2 1 1 32 = scryptA.Key pbZero [] [] 2 1 1 32 :=
  claim_C10_deterministic pbZero [] [] [] [] 2 2 1 1 1 1 32 32 rfl rfl rfl rfl rfl rfl
